import Mathlib

/-
  Verification development for the tmplx template engine.

  The Go package tmplx layers template inheritance (extend), named overridable
  regions (block) and textual splicing (include) on top of html/template.  This
  file gives a shallow embedding of the engine and proves/refutes the frozen
  claims about it.

  Modelling conventions:
  * A template source file is represented by the sequence of top-level parse
    nodes Go template parsing would produce (text, extend/include function
    actions, block actions).  Textual operations on the raw content
    (strings.Replace of a directive node's exact text, splicing include
    expansions in place of the directive span) are modelled as the
    corresponding operations on the node sequence: removing / replacing the
    first node equal to the directive node.
  * html/template values (template.Template) are modelled by the Template
    structure: the main parse tree (root, with each block action desugared to
    its template invocation, as Go parsing does) plus the map of associated
    templates (assoc).  tmpl.Parse adding definitions, AddParseTree replacing
    an existing definition, and t.Templates() enumeration are modelled on the
    association list with last-writer-wins upsert.
  * The engine state (caches, function table, read log) is threaded
    explicitly; fs.ReadFile appends the requested path to the read log, which
    models the read counter the spec mentions.
  * The two recursive procedures (resolveInheritance, processIncludes) take a
    fuel parameter, structurally decreasing at each nested recursion, so that
    every definition is a computable structural recursion; theorems quantify
    over sufficient fuel.  Fuel exhaustion is a distinguished error that the
    Go code cannot produce; no theorem's conclusion hides behind it.
-/

namespace Tmplx

/-- Decidable equality for Except, so that concrete runs of the model can be
checked by decide. -/
instance {ε α : Type} [DecidableEq ε] [DecidableEq α] : DecidableEq (Except ε α) := fun x y =>
  match x, y with
  | .ok a, .ok b =>
    if h : a = b then .isTrue (by rw [h]) else .isFalse (by simp [h])
  | .error a, .error b =>
    if h : a = b then .isTrue (by rw [h]) else .isFalse (by simp [h])
  | .ok _, .error _ => .isFalse (by simp)
  | .error _, .ok _ => .isFalse (by simp)

/-- Association list lookup keyed by strings: models Go map indexing m[k]. -/
def lookupS {α : Type} : List (String × α) → String → Option α
  | [], _ => none
  | (k1, v) :: rest, k => if k1 = k then some v else lookupS rest k

/-- Association list update m[k] = v: replaces the entry for k if present,
otherwise appends it.  Models Go map assignment (and AddParseTree redefining
an associated template). -/
def upsert {α : Type} : List (String × α) → String → α → List (String × α)
  | [], k, v => [(k, v)]
  | (k1, v1) :: rest, k, v =>
    if k1 = k then (k, v) :: rest else (k1, v1) :: upsert rest k v

/-- Fold a batch of updates into an association list, in order. -/
def upsertAll {α : Type} (m : List (String × α)) (adds : List (String × α)) :
    List (String × α) :=
  adds.foldl (fun acc kv => upsert acc kv.1 kv.2) m

/-- Top-level parse nodes of a template source, as produced by the underlying
template parser.  blockD is the block action with its literal body; invokeD is
the template-invocation node that Go parsing leaves in the main tree in place
of a block action (and that re-parsing a resolved tree's printed form yields). -/
inductive Node where
  | text (s : String)
  | extendD (target : String)
  | includeD (target : String)
  | blockD (name : String) (body : String)
  | invokeD (name : String)
deriving DecidableEq, Repr

/-- Values in the engine's function table.  The three entries installed by New
are the reserved stubs; user-supplied callables are opaque, tagged by an id. -/
inductive FuncVal where
  | reservedExtend
  | reservedBlock
  | reservedInclude
  | userFn (id : Nat)
deriving DecidableEq, Repr

/-- Model of a parsed html/template value: its name, its main parse tree and
its associated (named) templates. -/
structure Template where
  name : String
  root : List Node
  assoc : List (String × String)
deriving DecidableEq, Repr

/-- templateTree from the source: the scan result for one source file.  The Go
field named extends is called extendsTo here (extends is a Lean keyword);
the unused blocks field of the Go struct is omitted. -/
structure TemplateTree where
  name : String
  content : List Node
  extendsTo : String
  includes : List String
deriving DecidableEq, Repr

/-- Error values, mirroring the fmt.Errorf messages of the source; the wrap.
constructors model the error-wrapping format verbs. -/
inductive Err where
  | fileNotFound (path : String)
  | cycleInherit (name : String)
  | cycleInclude (path : String)
  | notFound (name : String)
  | noAssoc (name : String)
  | execError (msg : String)
  | outOfFuel
  | wrapParent (parent : String) (e : Err)
  | wrapIncludes (e : Err)
  | wrapReadInclude (path : String) (e : Err)
  | wrapNestedIncl (path : String) (e : Err)
  | wrapResolve (relPath : String) (e : Err)
  | wrapLoad (e : Err)
  | wrapPkgLoad (e : Err)
  | wrapRender (name : String) (e : Err)
deriving DecidableEq, Repr

/-- Strip all the wrapping layers of an error, exposing the originating error. -/
def Err.base : Err → Err
  | .wrapParent _ e => e.base
  | .wrapIncludes e => e.base
  | .wrapReadInclude _ e => e.base
  | .wrapNestedIncl _ e => e.base
  | .wrapResolve _ e => e.base
  | .wrapLoad e => e.base
  | .wrapPkgLoad e => e.base
  | .wrapRender _ e => e.base
  | .fileNotFound p => .fileNotFound p
  | .cycleInherit n => .cycleInherit n
  | .cycleInclude p => .cycleInclude p
  | .notFound n => .notFound n
  | .noAssoc n => .noAssoc n
  | .execError m => .execError m
  | .outOfFuel => .outOfFuel

/-- TemplateEngine state.  fsys is the filesystem abstraction (name to parsed
source nodes); cache is the published render table, loadCache the inheritance
cache, inclCache the include cache; reads logs every fs.ReadFile call. -/
structure Engine where
  root : String
  fsys : List (String × List Node)
  cache : List (String × Template)
  loadCache : List (String × Template)
  inclCache : List (String × (List Node × Template))
  funcMap : List (String × FuncVal)
  loaded : Bool
  reads : List String
deriving DecidableEq, Repr

/-- Options for New.  dir and fsys together model Dir/FS (the file contents
are abstract either way); the logger is always the no-op model. -/
structure Options where
  dir : String
  funcMap : List (String × FuncVal)
  fsys : List (String × List Node)
deriving DecidableEq, Repr

/-- filepath.Join of the engine root and a name, with the root "." cleaned
away as filepath.Join does. -/
def joinPath (root name : String) : String :=
  if root = "." then name else root ++ "/" ++ name

/-- filepath.Base: the last path component, for the clean, slash-separated
relative paths the engine passes around. -/
def baseName (p : String) : String :=
  String.mk (p.data.foldl (fun acc c => if c = '/' then [] else acc ++ [c]) [])

/-- strings.HasSuffix. -/
def hasSuffix (s sfx : String) : Bool :=
  sfx.data.isSuffixOf s.data

/-- fs.ReadFile through the engine's filesystem; logs the read attempt. -/
def readFile (e : Engine) (path : String) : Engine × Except Err (List Node) :=
  ({ e with reads := e.reads ++ [path] },
   match lookupS e.fsys path with
   | some nodes => .ok nodes
   | none => .error (.fileNotFound path))

/-- Removal of the first occurrence of a directive node's exact text from the
content: strings.Replace(content, node.String(), "", 1). -/
def eraseFirstNode : List Node → Node → List Node
  | [], _ => []
  | x :: rest, nd => if x = nd then rest else x :: eraseFirstNode rest nd

/-- Replacement of the first occurrence of a directive node's exact text by a
processed fragment: strings.Replace(processed, node.String(), incl, 1). -/
def spliceFirst : List Node → Node → List Node → List Node
  | [], _, _ => []
  | x :: rest, nd, repl => if x = nd then repl ++ rest else x :: spliceFirst rest nd repl

/-- Go parsing desugars a block action into the invocation of the associated
template it defines. -/
def desugarNode : Node → Node
  | .blockD n _ => .invokeD n
  | .text s => .text s
  | .extendD t => .extendD t
  | .includeD t => .includeD t
  | .invokeD n => .invokeD n

/-- The associated templates that parsing a content defines: one entry per
block action, later definitions replacing earlier ones. -/
def collectBlocks (nodes : List Node) : List (String × String) :=
  nodes.foldl
    (fun acc nd =>
      match nd with
      | .blockD n b => upsert acc n b
      | _ => acc)
    []

/-- tmpl.Parse(content) on an existing template t: the main tree becomes the
desugared content and the block definitions are added to the associated
templates, redefinitions replacing earlier entries. -/
def parseOnto (t : Template) (nodes : List Node) : Template :=
  ⟨t.name, nodes.map desugarNode, upsertAll t.assoc (collectBlocks nodes)⟩

/-- template.New(tname).Parse(content). -/
def parseContent (tname : String) (nodes : List Node) : Template :=
  parseOnto ⟨tname, [], []⟩ nodes

/-- The directive scan loop of parseTemplateFile: walks the parsed top-level
nodes; each extend action records its target (overwriting the field) and has
its exact textual span removed from the content; each include action is
recorded.  Note the loop does not stop at the first extend action. -/
def scanNodes : List Node → TemplateTree → TemplateTree
  | [], t => t
  | .extendD tgt :: rest, t =>
    scanNodes rest
      { t with extendsTo := tgt, content := eraseFirstNode t.content (.extendD tgt) }
  | .includeD tgt :: rest, t =>
    scanNodes rest { t with includes := t.includes ++ [tgt] }
  | .text _ :: rest, t => scanNodes rest t
  | .blockD _ _ :: rest, t => scanNodes rest t
  | .invokeD _ :: rest, t => scanNodes rest t

/-- parseTemplateFile: read the source, pre-parse it and scan for directives.
The arity checks cannot fail in the node model and the validating re-parse
with stubbed block/include always succeeds, so the only error is a failed
read. -/
def parseTemplateFile (e : Engine) (path : String) :
    Engine × Except Err TemplateTree :=
  match readFile e path with
  | (e1, .error err) => (e1, .error err)
  | (e1, .ok nodes) =>
    (e1, .ok (scanNodes nodes ⟨baseName path, nodes, "", []⟩))

/-- removeExtendDirective: textual removal of the first extend directive span,
if any. -/
def removeExtendDirective : List Node → List Node
  | [] => []
  | .extendD _ :: rest => rest
  | .text s :: rest => .text s :: removeExtendDirective rest
  | .includeD t :: rest => .includeD t :: removeExtendDirective rest
  | .blockD n b :: rest => .blockD n b :: removeExtendDirective rest
  | .invokeD n :: rest => .invokeD n :: removeExtendDirective rest

/-- copyTemplates(base, src): AddParseTree every associated template of src
into base, skipping the empty name and src's own (main) name.  Since the main
template of src carries src's name it is always skipped, so enumerating the
associated templates suffices. -/
def copyTemplates (base : Template) (src : Template) : Template :=
  { base with
    assoc := src.assoc.foldl
      (fun acc kv => if kv.1 ≠ "" ∧ kv.1 ≠ src.name then upsert acc kv.1 kv.2 else acc)
      base.assoc }

/-- copyBlockTemplates(base, child): AddParseTree every associated template of
child into base except the one named "temp" (the child scratch template's main
name). -/
def copyBlockTemplates (base : Template) (child : Template) : Template :=
  { base with
    assoc := child.assoc.foldl
      (fun acc kv => if kv.1 ≠ "temp" then upsert acc kv.1 kv.2 else acc)
      base.assoc }

/-- The body of the include-processing loop of processIncludes: walks the
parsed top-level nodes; for each include action, checks the per-branch visited
set, reads the target (unconditionally, before the recursive call that would
consult the include cache), recursively processes it, merges the collected
block definitions (skipping the empty name and the collecting template's own
empty main name) and splices the expansion over the directive's span.  rec is
the recursive entry at the remaining fuel. -/
def includeLoop
    (rec : Engine → List Node → String → List String →
      Engine × Except Err (List Node × Template)) :
    Engine → List Node → List Node → List (String × String) → List String →
      Engine × Except Err (List Node × List (String × String))
  | e, [], processed, collected, _ => (e, .ok (processed, collected))
  | e, .includeD includePath :: rest, processed, collected, visited =>
    if includePath ∈ visited then
      (e, .error (.cycleInclude includePath))
    else
      match readFile e (joinPath e.root includePath) with
      | (e1, .error err) => (e1, .error (.wrapReadInclude includePath err))
      | (e1, .ok includeContent) =>
        match rec e1 includeContent includePath (includePath :: visited) with
        | (e2, .error err) => (e2, .error (.wrapNestedIncl includePath err))
        | (e2, .ok (processedInclude, includeTmpl)) =>
          let collected1 := includeTmpl.assoc.foldl
            (fun acc kv =>
              if kv.1 ≠ "" ∧ kv.1 ≠ includeTmpl.name then upsert acc kv.1 kv.2 else acc)
            collected
          includeLoop rec e2 rest
            (spliceFirst processed (.includeD includePath) processedInclude)
            collected1 visited
  | e, .text _ :: rest, processed, collected, visited =>
    includeLoop rec e rest processed collected visited
  | e, .extendD _ :: rest, processed, collected, visited =>
    includeLoop rec e rest processed collected visited
  | e, .blockD _ _ :: rest, processed, collected, visited =>
    includeLoop rec e rest processed collected visited
  | e, .invokeD _ :: rest, processed, collected, visited =>
    includeLoop rec e rest processed collected visited

/-- processIncludes(content, currentFile, visited): include-cache check, then
the include loop, then a parse of the substituted content into the collecting
template to capture the blocks declared at this level, then caching of the
expanded pair under currentFile. -/
def processIncludes : Nat → Engine → List Node → String → List String →
    Engine × Except Err (List Node × Template)
  | 0 => fun e _ _ _ => (e, .error .outOfFuel)
  | fuel + 1 => fun e content currentFile visited =>
    match lookupS e.inclCache currentFile with
    | some pr => (e, .ok pr)
    | none =>
      match includeLoop (processIncludes fuel) e content content [] visited with
      | (e1, .error err) => (e1, .error err)
      | (e1, .ok (processed, collected)) =>
        let collectingTmpl : Template :=
          ⟨"", processed.map desugarNode, upsertAll collected (collectBlocks processed)⟩
        ({ e1 with inclCache := upsert e1.inclCache currentFile (processed, collectingTmpl) },
         .ok (processed, collectingTmpl))

/-- resolveInheritance(name, visited): cycle check against the visited set,
inheritance-cache check, source scan, then either the extends branch (resolve
the parent, re-parse its printed root, copy its associated templates, expand
the child's includes, parse the child in the scratch template "temp" and copy
the include-carried then the directly declared blocks over the base) or the
base branch (expand includes, seed with the include-carried blocks, parse the
content over them); on success the result is stored in the inheritance cache.
The mutation of the shared visited map before recursion is modelled by passing
name :: visited to the recursive call, which is the only later reader. -/
def resolveInheritance : Nat → Engine → String → List String →
    Engine × Except Err Template
  | 0 => fun e _ _ => (e, .error .outOfFuel)
  | fuel + 1 => fun e name visited =>
    if name ∈ visited then
      (e, .error (.cycleInherit name))
    else
      match lookupS e.loadCache name with
      | some t => (e, .ok t)
      | none =>
        match parseTemplateFile e (joinPath e.root name) with
        | (e1, .error err) => (e1, .error err)
        | (e1, .ok tree) =>
          if tree.extendsTo ≠ "" then
            match resolveInheritance fuel e1 tree.extendsTo (name :: visited) with
            | (e2, .error err) => (e2, .error (.wrapParent tree.extendsTo err))
            | (e2, .ok parentTemplate) =>
              let base0 : Template := parseOnto ⟨tree.name, [], []⟩ parentTemplate.root
              let base1 : Template := copyTemplates base0 parentTemplate
              match processIncludes fuel e2 (removeExtendDirective tree.content) name [] with
              | (e3, .error err) => (e3, .error (.wrapIncludes err))
              | (e3, .ok (processedContent, includeTmpl)) =>
                let childTemplate : Template := parseContent "temp" processedContent
                let base2 : Template := copyTemplates base1 includeTmpl
                let base3 : Template := copyBlockTemplates base2 childTemplate
                ({ e3 with loadCache := upsert e3.loadCache name base3 }, .ok base3)
          else
            match processIncludes fuel e1 tree.content name [] with
            | (e2, .error err) => (e2, .error (.wrapIncludes err))
            | (e2, .ok (processedContent, includeTmpl)) =>
              let base0 : Template := copyTemplates ⟨tree.name, [], []⟩ includeTmpl
              let base1 : Template := parseOnto base0 processedContent
              ({ e2 with loadCache := upsert e2.loadCache name base1 }, .ok base1)

/-- The walk body of LoadTemplates over the enumerated files (directories are
not modelled; walk order is the filesystem list order): skip names without the
.html suffix, resolve each template with a fresh visited set and publish the
result into the render cache; the first resolution error aborts the walk. -/
def loadWalk (fuel : Nat) : Engine → List (String × List Node) →
    Engine × Except Err Unit
  | e, [] => (e, .ok ())
  | e, (path, _) :: rest =>
    if hasSuffix path ".html" then
      match resolveInheritance fuel e path [] with
      | (e1, .error err) => (e1, .error (.wrapResolve path err))
      | (e1, .ok t) => loadWalk fuel { e1 with cache := upsert e1.cache path t } rest
    else
      loadWalk fuel e rest

/-- LoadTemplates: one full walk over the source tree. -/
def LoadTemplates (fuel : Nat) (e : Engine) : Engine × Except Err Unit :=
  loadWalk fuel e e.fsys

/-- Load: no-op once loaded; otherwise LoadTemplates and mark loaded. -/
def Load (fuel : Nat) (e : Engine) : Engine × Except Err Unit :=
  if e.loaded then (e, .ok ())
  else
    match LoadTemplates fuel e with
    | (e1, .error err) => (e1, .error (.wrapLoad err))
    | (e1, .ok _) => ({ e1 with loaded := true }, .ok ())

/-- New: install the three reserved function stubs, then add the user
functions, passing through every name other than "extend" and "include". -/
def New (opts : Options) : Engine :=
  let funcMap0 : List (String × FuncVal) :=
    [("extend", .reservedExtend), ("block", .reservedBlock), ("include", .reservedInclude)]
  { root := "."
    fsys := opts.fsys
    cache := []
    loadCache := []
    inclCache := []
    funcMap := opts.funcMap.foldl
      (fun acc kv => if kv.1 ≠ "extend" ∧ kv.1 ≠ "include" then upsert acc kv.1 kv.2 else acc)
      funcMap0
    loaded := false
    reads := [] }

/-- AddFuncs: merge every supplied function into the function table, then
re-run LoadTemplates. -/
def AddFuncs (fuel : Nat) (e : Engine) (funcMap : List (String × FuncVal)) :
    Engine × Except Err Unit :=
  LoadTemplates fuel { e with funcMap := upsertAll e.funcMap funcMap }

/-- Execution of one node of a resolved main tree against the associated
templates: text is emitted, a template invocation renders the associated body
(failing if undefined), a residual block action renders its override or its
default, and residual extend/include actions hit the runtime stubs. -/
def execNode (assoc : List (String × String)) : Node → Except Err String
  | .text s => .ok s
  | .invokeD n =>
    match lookupS assoc n with
    | some b => .ok b
    | none => .error (.noAssoc n)
  | .blockD n b =>
    match lookupS assoc n with
    | some b1 => .ok b1
    | none => .ok b
  | .extendD _ => .error (.execError "extend can only be called during template parsing")
  | .includeD _ => .error (.execError "include can only be called during template parsing")

/-- tmpl.Execute: render the main tree left to right. -/
def executeTemplate (t : Template) : Except Err String :=
  t.root.foldl
    (fun acc nd =>
      match acc with
      | .error err => .error err
      | .ok s =>
        match execNode t.assoc nd with
        | .ok s1 => .ok (s ++ s1)
        | .error err => .error err)
    (.ok "")

/-- renderTo/Render: look the name up in the published cache and execute. -/
def renderString (e : Engine) (name : String) : Except Err String :=
  match lookupS e.cache name with
  | none => .error (.notFound name)
  | some t =>
    match executeTemplate t with
    | .error err => .error (.wrapRender name err)
    | .ok s => .ok s

/-- Outcome of a package-level entrypoint: a Go nil-pointer dereference panic,
a rendered string, or an error return. -/
inductive RenderOutcome where
  | panicked
  | ok (s : String)
  | err (e : Err)
deriving DecidableEq, Repr

/-- Package-level Load (default_engine.go): assigns DefaultEngine = New(opts)
before calling Load on it, so the global is non-nil afterwards even when the
load fails; the error is wrapped. -/
def pkgLoad (fuel : Nat) (opts : Options) : Option Engine × Except Err Unit :=
  match Load fuel (New opts) with
  | (e1, .error err) => (some e1, .error (.wrapPkgLoad err))
  | (e1, .ok _) => (some e1, .ok ())

/-- Package-level Render: calls DefaultEngine.Render with no nil check; a call
while the global is nil dereferences the nil engine inside renderTo and
panics, which the model records as the panicked outcome. -/
def pkgRender (st : Option Engine) (name : String) : RenderOutcome :=
  match st with
  | none => .panicked
  | some e =>
    match renderString e name with
    | .ok s => .ok s
    | .error err => .err err

/-- Package-level RenderResponse: renders through DefaultEngine.Render exactly
as pkgRender does and writes the bytes out; the outcome is the same. -/
def pkgRenderResponse (st : Option Engine) (name : String) : RenderOutcome :=
  pkgRender st name

/-- Whether a top-level node is an extend directive. -/
def isExtendNode : Node → Bool
  | .extendD _ => true
  | .text _ => false
  | .includeD _ => false
  | .blockD _ _ => false
  | .invokeD _ => false

/-- The extends target after scanning a node sequence, starting from a current
value: each extend directive overwrites it, so the last one wins. -/
def lastExtendFrom : String → List Node → String
  | cur, [] => cur
  | _, .extendD t :: rest => lastExtendFrom t rest
  | cur, .text _ :: rest => lastExtendFrom cur rest
  | cur, .includeD _ :: rest => lastExtendFrom cur rest
  | cur, .blockD _ _ :: rest => lastExtendFrom cur rest
  | cur, .invokeD _ :: rest => lastExtendFrom cur rest

/-- The include targets of a node sequence, in document order. -/
def includeTargets : List Node → List String
  | [] => []
  | .includeD t :: rest => t :: includeTargets rest
  | .text _ :: rest => includeTargets rest
  | .extendD _ :: rest => includeTargets rest
  | .blockD _ _ :: rest => includeTargets rest
  | .invokeD _ :: rest => includeTargets rest

/-- One step of the extends relation induced by a filesystem: the scanned
extends target of the named source, when the source exists and names one. -/
def parentOf (fsys : List (String × List Node)) (root name : String) : Option String :=
  match lookupS fsys (joinPath root name) with
  | none => none
  | some nodes =>
    let t := scanNodes nodes ⟨baseName (joinPath root name), nodes, "", []⟩
    if t.extendsTo = "" then none else some t.extendsTo

/-- Fixture: a two-template extends cycle. -/
def engCycleAB : Engine :=
  ⟨".", [("a.html", [.extendD "b.html"]), ("b.html", [.extendD "a.html"])],
   [], [], [], [], false, []⟩

/-- Fixture: the alternating name sequence along the two-template cycle. -/
def cycleAB (i : Nat) : String :=
  if i % 2 = 0 then "a.html" else "b.html"

/-- Fixture: a three-template chain with bodies for one shared block name,
parameterized by the names and bodies. -/
def engChainOf (nA nB nC n bA bB bC : String) : Engine :=
  ⟨".", [(nA, [.extendD nB, .blockD n bA]),
         (nB, [.extendD nC, .blockD n bB]),
         (nC, [.blockD n bC])], [], [], [], [], false, []⟩

/-- Fixture: one resolvable template followed by one whose parent is missing. -/
def engPartial : Engine :=
  ⟨".", [("a.html", [.text "A"]), ("b.html", [.extendD "missing.html"])],
   [], [], [], [], false, []⟩

/-- Fixture: the two-file family behind engPartial, parameterized. -/
def engTwoFiles (na nb tgt sa : String) : Engine :=
  ⟨".", [(na, [.text sa]), (nb, [.extendD tgt])], [], [], [], [], false, []⟩

/-- Fixture: an includable file that itself includes a leaf file. -/
def engInclTwice : Engine :=
  ⟨".", [("inc.html", [.includeD "leaf.html"]), ("leaf.html", [.text "L"])],
   [], [], [], [], false, []⟩

/-- Fixture: the include-pair family behind engInclTwice, parameterized. -/
def engIncPair (p q s : String) : Engine :=
  ⟨".", [(p, [.includeD q]), (q, [.text s])], [], [], [], [], false, []⟩

/-- Fixture: a fresh engine over one trivial template. -/
def engOneFile : Engine := New ⟨"", [], [("a.html", [.text "A"])]⟩

/-- Fixture: engOneFile after a full successful load. -/
def engOneLoaded : Engine := (LoadTemplates 5 engOneFile).1

/-- Fixture: an engine whose loaded flag is already set. -/
def engLoadedFlag : Engine :=
  ⟨".", [("a.html", [.text "A"])], [], [], [], [], true, []⟩

/-- Fixture: a bare single-template engine. -/
def engSingle : Engine :=
  ⟨".", [("a.html", [.text "A"])], [], [], [], [], false, []⟩

/-- Fixture: engSingle after a full load (publishes the render cache). -/
def engSingleLoaded : Engine := (LoadTemplates 5 engSingle).1

/-- Fixture: options whose only template extends a missing parent. -/
def optsBad : Options := ⟨"", [], [("bad.html", [.extendD "missing.html"])]⟩

theorem lookupS_upsert_self {α : Type} (m : List (String × α)) (k : String) (v : α) :
    lookupS (upsert m k v) k = some v := by
  induction m with
  | nil => simp [upsert, lookupS]
  | cons kv rest ih =>
    obtain ⟨k1, v1⟩ := kv
    by_cases h : k1 = k
    · simp [upsert, h, lookupS]
    · simp [upsert, h, lookupS, ih]

/-- Resolution of a name already in the inheritance cache (and not on the
current call stack) returns the cached template and leaves the engine — its
read log included — unchanged. -/
theorem resolve_cacheHit (fuel : Nat) (e : Engine) (name : String) (visited : List String)
    (t : Template) (hv : name ∉ visited) (hc : lookupS e.loadCache name = some t) :
    resolveInheritance (fuel + 1) e name visited = (e, .ok t) := by
  simp [resolveInheritance, hv, hc]

/-- Successful resolution stores its result in the inheritance cache under the
resolved name. -/
theorem resolve_stores (fuel : Nat) (e e2 : Engine) (name : String) (visited : List String)
    (t : Template) (h : resolveInheritance fuel e name visited = (e2, .ok t)) :
    lookupS e2.loadCache name = some t := by
  cases fuel with
  | zero => simp [resolveInheritance] at h
  | succ f =>
    simp only [resolveInheritance] at h
    split at h
    · simp at h
    · split at h
      · rename_i t0 heq
        obtain ⟨he, ht⟩ := Prod.mk.injEq .. |>.mp h
        cases ht
        exact he ▸ heq
      · split at h
        · simp at h
        · split at h
          · split at h
            · simp at h
            · split at h
              · simp at h
              · obtain ⟨he, ht⟩ := Prod.mk.injEq .. |>.mp h
                cases ht
                rw [← he]
                exact lookupS_upsert_self ..
          · split at h
            · simp at h
            · obtain ⟨he, ht⟩ := Prod.mk.injEq .. |>.mp h
              cases ht
              rw [← he]
              exact lookupS_upsert_self ..

/-- C6 helper: when the first extend directive occurring in a content equals
the given one, erasing its span removes exactly that occurrence and leaves
every non-extend node in place. -/
theorem eraseFirst_extend_head (c : List Node) (tgt : String) (l : List Node)
    (h : c.filter isExtendNode = .extendD tgt :: l) :
    (eraseFirstNode c (.extendD tgt)).filter isExtendNode = l ∧
    (eraseFirstNode c (.extendD tgt)).filter (fun nd => !isExtendNode nd)
      = c.filter (fun nd => !isExtendNode nd) := by
  induction c with
  | nil => simp at h
  | cons x rest ih =>
    cases hx : isExtendNode x with
    | false =>
      have hxne : x ≠ .extendD tgt := by
        intro he
        rw [he] at hx
        simp [isExtendNode] at hx
      rw [List.filter_cons_of_neg (by simp [hx])] at h
      obtain ⟨ih1, ih2⟩ := ih h
      refine ⟨?_, ?_⟩
      · simpa [eraseFirstNode, hxne, List.filter_cons, hx] using ih1
      · simp [eraseFirstNode, hxne, List.filter_cons, hx, ih2]
    | true =>
      rw [List.filter_cons_of_pos hx] at h
      obtain ⟨hx1, hx2⟩ := List.cons.injEq .. |>.mp h
      refine ⟨?_, ?_⟩
      · simp [eraseFirstNode, hx1, hx2]
      · rw [hx1]
        simp [eraseFirstNode]
        rw [List.filter_cons_of_neg]
        rw [← hx1]
        simp [hx]

/-- C6 helper: full characterization of the directive scan.  Starting from a
tree whose content carries the same extend directives as the nodes still to be
scanned, the scan filters every extend directive out of the content, records
the last extend target and appends every include target in order. -/
theorem scanNodes_spec (nodes : List Node) :
    ∀ (nm : String) (ct : List Node) (ex : String) (inc : List String),
      ct.filter isExtendNode = nodes.filter isExtendNode →
      scanNodes nodes ⟨nm, ct, ex, inc⟩ =
        ⟨nm, ct.filter (fun nd => !isExtendNode nd), lastExtendFrom ex nodes,
          inc ++ includeTargets nodes⟩ := by
  induction nodes with
  | nil =>
    intro nm ct ex inc h
    simp only [List.filter_nil] at h
    have hself : ct.filter (fun nd => !isExtendNode nd) = ct := by
      rw [List.filter_eq_self]
      intro a ha
      simpa using List.filter_eq_nil_iff.mp h a ha
    simp [scanNodes, hself, lastExtendFrom, includeTargets]
  | cons nd rest ih =>
    intro nm ct ex inc h
    cases nd with
    | extendD tgt =>
      have h2 : ct.filter isExtendNode = .extendD tgt :: rest.filter isExtendNode := by
        simpa [List.filter_cons, isExtendNode] using h
      obtain ⟨he1, he2⟩ := eraseFirst_extend_head ct tgt _ h2
      simpa [scanNodes, lastExtendFrom, includeTargets, he2] using
        ih nm (eraseFirstNode ct (.extendD tgt)) tgt inc he1
    | includeD tgt =>
      have h2 : ct.filter isExtendNode = rest.filter isExtendNode := by
        simpa [List.filter_cons, isExtendNode] using h
      simpa [scanNodes, lastExtendFrom, includeTargets, List.append_assoc] using
        ih nm ct ex (inc ++ [tgt]) h2
    | text s =>
      have h2 : ct.filter isExtendNode = rest.filter isExtendNode := by
        simpa [List.filter_cons, isExtendNode] using h
      simpa [scanNodes, lastExtendFrom, includeTargets] using ih nm ct ex inc h2
    | blockD n b =>
      have h2 : ct.filter isExtendNode = rest.filter isExtendNode := by
        simpa [List.filter_cons, isExtendNode] using h
      simpa [scanNodes, lastExtendFrom, includeTargets] using ih nm ct ex inc h2
    | invokeD n =>
      have h2 : ct.filter isExtendNode = rest.filter isExtendNode := by
        simpa [List.filter_cons, isExtendNode] using h
      simpa [scanNodes, lastExtendFrom, includeTargets] using ih nm ct ex inc h2

/-- C6, counterexample: a source with two extend directives.  The scan honors
the second directive (its target becomes the extends target, not the first
directive's target) and removes both directive spans from the content,
refuting the claim that only the first occurrence is honored and that exactly
its span is removed. -/
theorem claim6_first_extend_cex :
    (scanNodes [.extendD "a.html", .text "X", .extendD "b.html"]
      ⟨"t.html", [.extendD "a.html", .text "X", .extendD "b.html"], "", []⟩).extendsTo
        = "b.html" ∧
    (scanNodes [.extendD "a.html", .text "X", .extendD "b.html"]
      ⟨"t.html", [.extendD "a.html", .text "X", .extendD "b.html"], "", []⟩).extendsTo
        ≠ "a.html" ∧
    (scanNodes [.extendD "a.html", .text "X", .extendD "b.html"]
      ⟨"t.html", [.extendD "a.html", .text "X", .extendD "b.html"], "", []⟩).content
        = [.text "X"] := by
  decide

/-- C6, amended: the scan processes every top-level extend directive, not only
the first: each occurrence's span is removed from the returned content (so
later parsing never re-encounters any of them) and the recorded target is
overwritten at each occurrence, so the last directive's target becomes the
extends target; include targets are collected in document order. -/
theorem claim6_scan_all_extends (name : String) (nodes : List Node) :
    scanNodes nodes ⟨name, nodes, "", []⟩ =
      ⟨name, nodes.filter (fun nd => !isExtendNode nd), lastExtendFrom "" nodes,
        includeTargets nodes⟩ := by
  simpa using scanNodes_spec nodes name nodes "" [] rfl

/-- C9: once a load has succeeded (the loaded flag is set), a second Load call
returns success immediately, leaving the engine — caches, read log and all —
unchanged. -/
theorem claim9_load_idempotent (fuel : Nat) (e : Engine) (h : e.loaded = true) :
    Load fuel e = (e, .ok ()) := by
  simp [Load, h]

theorem claim9_load_idempotent_witness :
    engLoadedFlag.loaded = true ∧ Load 1 engLoadedFlag = (engLoadedFlag, .ok ()) :=
  ⟨rfl, claim9_load_idempotent 1 engLoadedFlag rfl⟩

/-- C5: the code does not protect the reserved names as claimed.  A user
function named "block" supplied at construction replaces the reserved entry
(New filters only "extend" and "include"), and AddFuncs installs user
functions over all three reserved names; other names do pass through, and New
does protect "extend" and "include". -/
theorem claim5_reserved_overridden :
    lookupS (New ⟨"", [("block", .userFn 0)], []⟩).funcMap "block" = some (.userFn 0) ∧
    lookupS (AddFuncs 1 (New ⟨"", [], []⟩) [("extend", .userFn 1)]).1.funcMap "extend"
      = some (.userFn 1) ∧
    lookupS (AddFuncs 1 (New ⟨"", [], []⟩) [("include", .userFn 2)]).1.funcMap "include"
      = some (.userFn 2) ∧
    lookupS (AddFuncs 1 (New ⟨"", [], []⟩) [("block", .userFn 6)]).1.funcMap "block"
      = some (.userFn 6) ∧
    lookupS (New ⟨"", [("other", .userFn 3)], []⟩).funcMap "other" = some (.userFn 3) ∧
    lookupS (New ⟨"", [("extend", .userFn 4)], []⟩).funcMap "extend" = some .reservedExtend ∧
    lookupS (New ⟨"", [("include", .userFn 5)], []⟩).funcMap "include"
      = some .reservedInclude := by
  decide

/-- C3, counterexample: in a tree where a.html resolves and b.html fails (its
parent is missing), the load aborts with the failure, yet the published render
cache already contains the entry for a.html from this very pass — the table is
built in place, not replaced wholesale. -/
theorem claim3_partial_publish_cex :
    (LoadTemplates 5 engPartial).2 =
      .error (.wrapResolve "b.html" (.wrapParent "missing.html"
        (.fileNotFound "missing.html"))) ∧
    lookupS (LoadTemplates 5 engPartial).1.cache "a.html"
      = some ⟨"a.html", [.text "A"], []⟩ ∧
    (LoadTemplates 5 engPartial).1.cache ≠ [] := by
  decide

/-- C4, counterexample: after a successful load of one template, AddFuncs with
a new function re-runs the load but clears nothing: the inheritance and
include caches still hold the entries of the first pass and the source is not
re-read (the read log still records exactly one read), so no template is
re-resolved with the updated functions. -/
theorem claim4_no_cache_clear_cex :
    (LoadTemplates 5 engOneFile).2 = .ok () ∧
    engOneLoaded.reads = ["a.html"] ∧
    (AddFuncs 5 engOneLoaded [("up", .userFn 1)]).2 = .ok () ∧
    (AddFuncs 5 engOneLoaded [("up", .userFn 1)]).1.reads = ["a.html"] ∧
    (AddFuncs 5 engOneLoaded [("up", .userFn 1)]).1.loadCache = engOneLoaded.loadCache ∧
    (AddFuncs 5 engOneLoaded [("up", .userFn 1)]).1.inclCache = engOneLoaded.inclCache ∧
    engOneLoaded.loadCache ≠ [] ∧ engOneLoaded.inclCache ≠ [] := by
  decide

/-- C7, counterexample: a document including inc.html twice (where inc.html
itself includes leaf.html).  Both occurrences are expanded, and the second
recursive processing is served from the include cache (leaf.html is read only
once), but inc.html itself is read once per occurrence — twice, not once as
claimed — because the caller reads the file before the cache is consulted. -/
theorem claim7_single_read_cex :
    (processIncludes 5 engInclTwice [.includeD "inc.html", .includeD "inc.html"]
        "page.html" []).2
      = .ok ([.text "L", .text "L"], ⟨"", [.text "L", .text "L"], []⟩) ∧
    (processIncludes 5 engInclTwice [.includeD "inc.html", .includeD "inc.html"]
        "page.html" []).1.reads = ["inc.html", "leaf.html", "inc.html"] ∧
    ¬ ((processIncludes 5 engInclTwice [.includeD "inc.html", .includeD "inc.html"]
        "page.html" []).1.reads.count "inc.html" ≤ 1) := by
  decide

/-- C10, counterexample: package-level Load assigns the default engine before
checking the load error, so after a failed Load the engine is non-nil and a
package-level Render returns an error instead of panicking — refuting the
claim that every call made before a successful Load dereferences nil and
panics. -/
theorem claim10_panic_cex :
    (pkgLoad 5 optsBad).2 =
      .error (.wrapPkgLoad (.wrapLoad (.wrapResolve "bad.html"
        (.wrapParent "missing.html" (.fileNotFound "missing.html"))))) ∧
    pkgRender (pkgLoad 5 optsBad).1 "bad.html" = .err (.notFound "bad.html") ∧
    pkgRender (pkgLoad 5 optsBad).1 "bad.html" ≠ .panicked ∧
    pkgRenderResponse (pkgLoad 5 optsBad).1 "bad.html" ≠ .panicked := by
  decide

/-- C10, amended: the package-level entrypoints panic via the nil dereference
exactly while the default engine is nil, i.e. before any package-level Load
call; every pkgLoad call — successful or not — sets the engine, after which
the entrypoints never panic and mirror the engine method's outcomes. -/
theorem claim10_nil_engine_panics :
    (∀ name, pkgRender none name = .panicked ∧ pkgRenderResponse none name = .panicked) ∧
    (∀ e name, pkgRender (some e) name ≠ .panicked) ∧
    (∀ fuel opts, ∃ eng, (pkgLoad fuel opts).1 = some eng) ∧
    (∀ e name s, renderString e name = .ok s → pkgRender (some e) name = .ok s) ∧
    (∀ e name err, renderString e name = .error err → pkgRender (some e) name = .err err) := by
  refine ⟨fun name => ⟨rfl, rfl⟩, ?_, ?_, ?_, ?_⟩
  · intro e name
    cases h : renderString e name <;> simp [pkgRender, h]
  · intro fuel opts
    rcases h : Load fuel (New opts) with ⟨e1, r⟩
    cases r <;> exact ⟨e1, by simp [pkgLoad, h]⟩
  · intro e name s h
    simp [pkgRender, h]
  · intro e name err h
    simp [pkgRender, h]

theorem claim10_nil_engine_panics_witness :
    pkgRender none "a.html" = .panicked ∧
    pkgRender (some engSingleLoaded) "a.html" ≠ .panicked ∧
    (∃ eng, (pkgLoad 1 optsBad).1 = some eng) ∧
    pkgRender (some engSingleLoaded) "a.html" = .ok "A" ∧
    pkgRender (some engSingleLoaded) "zzz.html" = .err (.notFound "zzz.html") :=
  ⟨(claim10_nil_engine_panics.1 "a.html").1,
   claim10_nil_engine_panics.2.1 engSingleLoaded "a.html",
   claim10_nil_engine_panics.2.2.1 1 optsBad,
   claim10_nil_engine_panics.2.2.2.1 engSingleLoaded "a.html" "A" (by decide),
   claim10_nil_engine_panics.2.2.2.2 engSingleLoaded "zzz.html" (.notFound "zzz.html")
     (by decide)⟩

/-- C8: a second resolution of a name within one session (any later call with
the name not on its call stack — in particular resolving it again at top
level, or re-resolving a shared ancestor while resolving a sibling) returns
the template cached by the first successful resolution and leaves the engine,
its read log included, unchanged: the source is not read again. -/
theorem claim8_second_resolve_cached (fuel1 fuel2 : Nat) (e e2 : Engine) (name : String)
    (visited visited2 : List String) (t : Template)
    (h1 : resolveInheritance fuel1 e name visited = (e2, .ok t))
    (h2 : name ∉ visited2) :
    resolveInheritance (fuel2 + 1) e2 name visited2 = (e2, .ok t) :=
  resolve_cacheHit fuel2 e2 name visited2 t h2
    (resolve_stores fuel1 e e2 name visited t h1)

/-- A full walk over sources that are all already in the inheritance cache
succeeds, reads nothing and leaves every cache but the published one, the
function table and the read log unchanged. -/
theorem loadWalk_cached (fuel : Nat) (fs : List (String × List Node)) :
    ∀ e : Engine,
      (∀ p b, (p, b) ∈ fs → hasSuffix p ".html" = true →
        ∃ t, lookupS e.loadCache p = some t) →
      (loadWalk (fuel + 1) e fs).2 = .ok () ∧
      (loadWalk (fuel + 1) e fs).1.reads = e.reads ∧
      (loadWalk (fuel + 1) e fs).1.loadCache = e.loadCache ∧
      (loadWalk (fuel + 1) e fs).1.inclCache = e.inclCache ∧
      (loadWalk (fuel + 1) e fs).1.funcMap = e.funcMap := by
  induction fs with
  | nil =>
    intro e hc
    simp [loadWalk]
  | cons pb rest ih =>
    intro e hc
    obtain ⟨p, b⟩ := pb
    have hcrest : ∀ p2 b2, (p2, b2) ∈ rest → hasSuffix p2 ".html" = true →
        ∃ t, lookupS e.loadCache p2 = some t :=
      fun p2 b2 hm hs => hc p2 b2 (List.mem_cons_of_mem _ hm) hs
    by_cases hs : hasSuffix p ".html" = true
    · obtain ⟨t, ht⟩ := hc p b (List.mem_cons_self _ _) hs
      have hres := resolve_cacheHit fuel e p [] t (List.not_mem_nil p) ht
      have hrec := ih { e with cache := upsert e.cache p t } hcrest
      simp only [loadWalk, hs, if_true, hres]
      exact hrec
    · simp only [loadWalk, if_neg hs]
      exact ih e hcrest

/-- C4, amended: AddFuncs merges the supplied map into the function table and
re-runs the full load, but clears no cache: with every template of the tree
already resolved, the re-load is served entirely from the inheritance cache —
no source is re-read, and the inheritance and include caches are exactly those
of the first pass, so no template is re-resolved with the updated functions. -/
theorem claim4_addfuncs_no_clear (fuel : Nat) (e : Engine) (fm : List (String × FuncVal))
    (hcached : ∀ p b, (p, b) ∈ e.fsys → hasSuffix p ".html" = true →
      ∃ t, lookupS e.loadCache p = some t) :
    (AddFuncs (fuel + 1) e fm).2 = .ok () ∧
    (AddFuncs (fuel + 1) e fm).1.funcMap = upsertAll e.funcMap fm ∧
    (AddFuncs (fuel + 1) e fm).1.reads = e.reads ∧
    (AddFuncs (fuel + 1) e fm).1.loadCache = e.loadCache ∧
    (AddFuncs (fuel + 1) e fm).1.inclCache = e.inclCache := by
  have h := loadWalk_cached fuel e.fsys { e with funcMap := upsertAll e.funcMap fm }
    (fun p b hm hs => hcached p b hm hs)
  exact ⟨h.1, h.2.2.2.2, h.2.1, h.2.2.1, h.2.2.2.1⟩

theorem claim4_addfuncs_no_clear_witness :
    (AddFuncs 5 engOneLoaded [("up", .userFn 1)]).2 = .ok () ∧
    (AddFuncs 5 engOneLoaded [("up", .userFn 1)]).1.funcMap
      = upsertAll engOneLoaded.funcMap [("up", .userFn 1)] ∧
    (AddFuncs 5 engOneLoaded [("up", .userFn 1)]).1.reads = engOneLoaded.reads ∧
    (AddFuncs 5 engOneLoaded [("up", .userFn 1)]).1.loadCache = engOneLoaded.loadCache ∧
    (AddFuncs 5 engOneLoaded [("up", .userFn 1)]).1.inclCache = engOneLoaded.inclCache := by
  have hfs : engOneLoaded.fsys = [("a.html", [.text "A"])] := by decide
  exact claim4_addfuncs_no_clear 4 engOneLoaded [("up", .userFn 1)]
    (by
      intro p b hm hs
      rw [hfs] at hm
      simp only [List.mem_singleton] at hm
      obtain ⟨hp, hb⟩ := Prod.mk.injEq .. |>.mp hm
      subst hp
      exact ⟨⟨"a.html", [.text "A"], []⟩, by decide⟩)

/-- C2 induction: descending an extends cycle.  If the names c 0 … c (k-1) lie
on a cycle of the extends relation (c (j+1) is the scanned parent of c j and
c k returns to c 0), then resolving c j with exactly c 0 … c (j-1) on the call
stack fails, and the originating error is the cycle error naming c 0. -/
theorem resolve_cycle_aux (fsys : List (String × List Node)) (root : String)
    (c : Nat → String) (k : Nat) (hk : 0 < k)
    (hstep : ∀ j, j < k → parentOf fsys root (c j) = some (c (j + 1)))
    (hdist : ∀ i j, i < j → j < k → c i ≠ c j)
    (hck : c k = c 0) :
    ∀ d j (e : Engine) (visited : List String) (fuel : Nat),
      j + d = k →
      e.fsys = fsys → e.root = root → e.loadCache = [] →
      (∀ x, x ∈ visited ↔ ∃ i, i < j ∧ x = c i) →
      d + 1 ≤ fuel →
      ∃ err, (resolveInheritance fuel e (c j) visited).2 = .error err ∧
        err.base = .cycleInherit (c 0) := by
  intro d
  induction d with
  | zero =>
    intro j e visited fuel hjk hfs hrt hlc hv hfuel
    have hj : j = k := by omega
    subst hj
    obtain ⟨f, rfl⟩ : ∃ f, fuel = f + 1 := ⟨fuel - 1, by omega⟩
    have hmem : c j ∈ visited := (hv (c j)).mpr ⟨0, hk, hck⟩
    refine ⟨.cycleInherit (c j), ?_, ?_⟩
    · simp [resolveInheritance, hmem]
    · rw [Err.base, hck]
  | succ d ih =>
    intro j e visited fuel hjk hfs hrt hlc hv hfuel
    have hjlt : j < k := by omega
    obtain ⟨f, rfl⟩ : ∃ f, fuel = f + 1 := ⟨fuel - 1, by omega⟩
    have hnmem : c j ∉ visited := by
      intro hmem
      obtain ⟨i, hi, hxi⟩ := (hv (c j)).mp hmem
      exact hdist i j hi hjlt hxi.symm
    obtain ⟨ert, efs, eca, elc, eic, efm, eld, erd⟩ := e
    have hfs2 : fsys = efs := (hfs : efs = fsys).symm
    have hrt2 : root = ert := (hrt : ert = root).symm
    have hlc2 : elc = [] := hlc
    subst hfs2
    subst hrt2
    subst hlc2
    have hp := hstep j hjlt
    rw [parentOf] at hp
    rcases hl : lookupS fsys (joinPath root (c j)) with _ | nodes
    · rw [hl] at hp
      simp at hp
    · rw [hl] at hp
      by_cases hem :
          (scanNodes nodes ⟨baseName (joinPath root (c j)), nodes, "", []⟩).extendsTo = ""
      · simp only [hem, if_true, ite_true] at hp
        simp at hp
      · have hext :
            (scanNodes nodes ⟨baseName (joinPath root (c j)), nodes, "", []⟩).extendsTo
              = c (j + 1) := by
          simp only [if_neg hem] at hp
          simpa using hp
        have hne : c (j + 1) ≠ "" := by
          rw [← hext]
          exact hem
        have hv2 : ∀ x, x ∈ c j :: visited ↔ ∃ i, i < j + 1 ∧ x = c i := by
          intro x
          simp only [List.mem_cons, hv x]
          constructor
          · rintro (rfl | ⟨i, hi, rfl⟩)
            · exact ⟨j, by omega, rfl⟩
            · exact ⟨i, by omega, rfl⟩
          · rintro ⟨i, hi, rfl⟩
            by_cases hij : i = j
            · subst hij
              exact Or.inl rfl
            · exact Or.inr ⟨i, by omega, rfl⟩
        obtain ⟨err, herr, hbase⟩ := ih (j + 1)
          ⟨root, fsys, eca, [], eic, efm, eld, erd ++ [joinPath root (c j)]⟩
          (c j :: visited) f (by omega) rfl rfl rfl hv2 (by omega)
        rcases hres : resolveInheritance f
            ⟨root, fsys, eca, [], eic, efm, eld, erd ++ [joinPath root (c j)]⟩
            (c (j + 1)) (c j :: visited) with ⟨e2, r⟩
        rw [hres] at herr
        have herr2 : r = .error err := herr
        subst herr2
        refine ⟨.wrapParent (c (j + 1)) err, ?_, ?_⟩
        · simp only [resolveInheritance, if_neg hnmem, lookupS, parseTemplateFile,
            readFile, hl, hext, hne, ne_eq, not_false_iff, if_true, ite_true,
            ite_false, if_false]
          rw [hres]
        · rw [Err.base]
          exact hbase

/-- C2: for every filesystem whose extends relation has a cycle through a
name — witnessed by names c 0 … c (k-1) with c (j+1) the scanned parent of
c j, c k = c 0, and the k names distinct — resolving that name on a fresh
session fails at bounded depth (uniformly in all sufficient fuel, so the
recursion never descends past the cycle) with an error whose origin is the
cycle error naming the resolved template: the name already in the per-call
visited set is rejected before any further recursive call. -/
theorem claim2_cycle_error (e : Engine) (c : Nat → String) (k fuel : Nat)
    (hk : 0 < k)
    (hstep : ∀ j, j < k → parentOf e.fsys e.root (c j) = some (c (j + 1)))
    (hdist : ∀ i j, i < j → j < k → c i ≠ c j)
    (hck : c k = c 0)
    (hcache : e.loadCache = [])
    (hfuel : k + 1 ≤ fuel) :
    ∃ err, (resolveInheritance fuel e (c 0) []).2 = .error err ∧
      err.base = .cycleInherit (c 0) :=
  resolve_cycle_aux e.fsys e.root c k hk hstep hdist hck k 0 e [] fuel
    (by omega) rfl rfl hcache (by simp) hfuel

theorem claim2_cycle_error_witness :
    ∃ err, (resolveInheritance 3 engCycleAB "a.html" []).2 = .error err ∧
      err.base = .cycleInherit "a.html" := by
  have hstep : ∀ j, j < 2 →
      parentOf engCycleAB.fsys engCycleAB.root (cycleAB j) = some (cycleAB (j + 1)) := by
    intro j hj
    interval_cases j
    · decide
    · decide
  have hdist : ∀ i j, i < j → j < 2 → cycleAB i ≠ cycleAB j := by
    intro i j hij hj
    interval_cases j
    · omega
    · interval_cases i
      decide
  exact claim2_cycle_error engCycleAB cycleAB 2 3 (by omega) hstep hdist (by decide)
    (by decide) (by omega)

/-- C1: for every chain A extends B extends C in which the three templates
each define a block of the same name, resolving A after a fresh start
succeeds, and the resolved template maps that block name to A's definition:
overrides are applied root to leaf, so executing the result renders A's body
for the block.  (The block name must differ from the empty name, the internal
scratch name and the parents' base file names, which would collide in the flat
namespace.) -/
theorem claim1_chain_override (nA nB nC n bA bB bC : String) (k : Nat)
    (hAB : nA ≠ nB) (hAC : nA ≠ nC) (hBC : nB ≠ nC)
    (hB0 : nB ≠ "") (hC0 : nC ≠ "")
    (hn0 : n ≠ "") (hnT : n ≠ "temp")
    (hnB : n ≠ baseName nB) (hnC : n ≠ baseName nC) :
    (resolveInheritance (k + 4) (engChainOf nA nB nC n bA bB bC) nA []).2
      = .ok ⟨baseName nA, [.invokeD n], [(n, bA)]⟩ ∧
    executeTemplate ⟨baseName nA, [.invokeD n], [(n, bA)]⟩ = .ok bA := by
  constructor
  · simp [engChainOf, resolveInheritance, processIncludes, includeLoop, parseTemplateFile,
      readFile, joinPath, lookupS, upsert, upsertAll, collectBlocks, parseOnto, parseContent,
      desugarNode, copyTemplates, copyBlockTemplates, spliceFirst, scanNodes, eraseFirstNode,
      removeExtendDirective,
      hAB, hAC, hBC, hB0, hC0, hn0, hnT, hnB, hnC,
      Ne.symm hAB, Ne.symm hAC, Ne.symm hBC]
  · simp [executeTemplate, execNode, lookupS]

theorem claim1_chain_override_witness :
    (resolveInheritance 4 (engChainOf "a.html" "b.html" "c.html" "content" "A" "B" "C")
        "a.html" []).2
      = .ok ⟨baseName "a.html", [.invokeD "content"], [("content", "A")]⟩ ∧
    executeTemplate ⟨baseName "a.html", [.invokeD "content"], [("content", "A")]⟩
      = .ok "A" :=
  claim1_chain_override "a.html" "b.html" "c.html" "content" "A" "B" "C" 0
    (by decide) (by decide) (by decide) (by decide) (by decide) (by decide) (by decide)
    (by decide) (by decide)

/-- C3, amended: the walk is fail-fast — the first failing resolution aborts
the load with that error — but templates resolved earlier in the same pass
have already been published: the render table is updated in place during the
walk, entry by entry, not built wholesale and swapped at the end. -/
theorem claim3_failfast_partial (na nb tgt sa : String) (k : Nat)
    (h1 : hasSuffix na ".html" = true) (h2 : hasSuffix nb ".html" = true)
    (hab : na ≠ nb) (hta : tgt ≠ na) (htb : tgt ≠ nb) (ht0 : tgt ≠ "") :
    (LoadTemplates (k + 3) (engTwoFiles na nb tgt sa)).2
      = .error (.wrapResolve nb (.wrapParent tgt (.fileNotFound tgt))) ∧
    lookupS (LoadTemplates (k + 3) (engTwoFiles na nb tgt sa)).1.cache na
      = some ⟨baseName na, [.text sa], []⟩ := by
  constructor <;>
  simp [engTwoFiles, LoadTemplates, loadWalk, resolveInheritance, processIncludes,
    includeLoop, parseTemplateFile, readFile, joinPath, lookupS, upsert, upsertAll,
    collectBlocks, parseOnto, desugarNode, copyTemplates, scanNodes, eraseFirstNode,
    removeExtendDirective, h1, h2, hab, hta, htb, ht0,
    Ne.symm hab, Ne.symm hta, Ne.symm htb]

theorem claim3_failfast_partial_witness :
    (LoadTemplates 3 (engTwoFiles "a.html" "b.html" "missing.html" "A")).2
      = .error (.wrapResolve "b.html" (.wrapParent "missing.html"
          (.fileNotFound "missing.html"))) ∧
    lookupS (LoadTemplates 3 (engTwoFiles "a.html" "b.html" "missing.html" "A")).1.cache
        "a.html"
      = some ⟨baseName "a.html", [.text "A"], []⟩ :=
  claim3_failfast_partial "a.html" "b.html" "missing.html" "A" 0
    (by decide) (by decide) (by decide) (by decide) (by decide) (by decide)

/-- C7, amended: an include path referenced twice in one document is expanded
at both occurrences and fully processed only once — the second recursive
processing is an include-cache hit, so the files it references are read only
once — but the included file itself is read once per occurrence (the caller
reads it before the recursive call consults the cache), so its source is read
twice, not once. -/
theorem claim7_include_read_per_occurrence (p q d s : String) (k : Nat)
    (hpq : p ≠ q) (hdp : d ≠ p) (hdq : d ≠ q) :
    (processIncludes (k + 3) (engIncPair p q s) [.includeD p, .includeD p] d []).2
      = .ok ([.text s, .text s], ⟨"", [.text s, .text s], []⟩) ∧
    (processIncludes (k + 3) (engIncPair p q s) [.includeD p, .includeD p] d []).1.reads
      = [p, q, p] := by
  constructor <;>
  simp [engIncPair, processIncludes, includeLoop, readFile, joinPath, lookupS, upsert,
    upsertAll, collectBlocks, spliceFirst, desugarNode, hpq, hdp, hdq,
    Ne.symm hpq, Ne.symm hdp, Ne.symm hdq]

theorem claim7_include_read_per_occurrence_witness :
    (processIncludes 3 (engIncPair "inc.html" "leaf.html" "L")
        [.includeD "inc.html", .includeD "inc.html"] "page.html" []).2
      = .ok ([.text "L", .text "L"], ⟨"", [.text "L", .text "L"], []⟩) ∧
    (processIncludes 3 (engIncPair "inc.html" "leaf.html" "L")
        [.includeD "inc.html", .includeD "inc.html"] "page.html" []).1.reads
      = ["inc.html", "leaf.html", "inc.html"] :=
  claim7_include_read_per_occurrence "inc.html" "leaf.html" "page.html" "L" 0
    (by decide) (by decide) (by decide)

theorem claim8_second_resolve_cached_witness :
    resolveInheritance 1 (resolveInheritance 2 engSingle "a.html" []).1 "a.html" []
      = ((resolveInheritance 2 engSingle "a.html" []).1, .ok ⟨"a.html", [.text "A"], []⟩) ∧
    (resolveInheritance 2 engSingle "a.html" []).1.reads = ["a.html"] :=
  ⟨claim8_second_resolve_cached 2 0 engSingle (resolveInheritance 2 engSingle "a.html" []).1
      "a.html" [] [] ⟨"a.html", [.text "A"], []⟩ (by decide) (by decide),
   by decide⟩

end Tmplx
